import Mathlib

/-!
Shallow embedding of the redeem-code scraper core found in bot.py and
redeem-code.py: table rows, row chunking, record extraction, the memo
differ, the single-table parser, and the startup memo loading.

A scraped table is modelled as the list of its tr rows; each row carries
the text of its first th cell and its first td cell (when present), which
is all that get_table_row_text inspects.  The process-wide mutable state
(the CODE_MEMO set and the memo file) is threaded explicitly; a raised
ValueError is an Except.error carrying the state as it stood when the
exception was raised.
-/

/-- A scraped table row: the raw text of the first header (th) cell and of
the first data (td) cell, when such cells exist. -/
structure Row where
  th : Option String
  td : Option String
deriving DecidableEq

/-- State touched by the differ: the in-memory memo set and the contents of
the memo file (none when the file does not exist). -/
structure BotState where
  memo : Finset String
  file : Option String
deriving DecidableEq

/-- Characters stripped by Python's str.strip (the Unicode whitespace set
used by CPython). -/
def isPySpace (c : Char) : Bool :=
  c.toNat = 9 || c.toNat = 10 || c.toNat = 11 || c.toNat = 12 || c.toNat = 13 ||
  c.toNat = 28 || c.toNat = 29 || c.toNat = 30 || c.toNat = 31 || c.toNat = 32 ||
  c.toNat = 133 || c.toNat = 160 || c.toNat = 5760 ||
  (8192 ≤ c.toNat && c.toNat ≤ 8202) ||
  c.toNat = 8232 || c.toNat = 8233 || c.toNat = 8239 || c.toNat = 8287 ||
  c.toNat = 12288

/-- Python str.strip: drop leading and trailing whitespace characters. -/
def pyStrip (s : String) : String :=
  String.mk (((s.data.dropWhile isPySpace).reverse.dropWhile isPySpace).reverse)

/-- The dictionary key looked up in each parsed row group. -/
def codeKey : String := "Code"

/-- Message raised when the page does not contain exactly one matching
table (the raw HTML payload of the source's f-string is abstracted away). -/
def tableCountMsg : String := "Got unexpected number of items"

/-- Message raised when the row count is not of the form 1 + 3*N. -/
def rowCountMsg : String := "Expected 1 + 3*N rows"

/-- Message raised by chunks_exact on leftover items. -/
def chunkLeftoverMsg : String := "Did not exact interval, had leftover items"

/-- Message raised when a parsed row group lacks a Code entry. -/
def missingCodeMsg : String := "Got invalid for data for table"

/-- get_table_row_text: return the stripped header and data cell texts, or
none when the row lacks a th or a td cell. -/
def get_table_row_text (row : Row) : Option (String × String) :=
  match row.th with
  | none => none
  | some header =>
    match row.td with
    | none => none
    | some data => some (pyStrip header, pyStrip data)

/-- Python dict assignment d[k] = v: overwrite the value at an existing key
in place, otherwise append the new binding at the end. -/
def dictInsert (d : List (String × String)) (k v : String) : List (String × String) :=
  if d.any (fun p => p.1 = k) then
    d.map (fun p => if p.1 = k then (k, v) else p)
  else
    d ++ [(k, v)]

/-- Python dict lookup d[k] as an option (keys are unique by construction). -/
def dictGet (d : List (String × String)) (k : String) : Option String :=
  (d.find? (fun p => p.1 = k)).map Prod.snd

/-- parse_chunked_rows: fold the rows of one chunk into a dict from stripped
header text to stripped data text, silently skipping rows that lack either
cell. -/
def parse_chunked_rows (chunk : List Row) : List (String × String) :=
  chunk.foldl
    (fun data row =>
      match get_table_row_text row with
      | none => data
      | some rd => dictInsert data rd.1 rd.2)
    []

/-- Loop body of the chunks_exact generator: accumulate items into a chunk,
emit the chunk whenever it reaches the interval, and fail if items are left
over when the iterable is exhausted. -/
def chunksExactGo (interval : Nat) : List Row → List Row →
    Except String (List (List Row))
  | chunk, [] =>
    if chunk.isEmpty then Except.ok []
    else Except.error chunkLeftoverMsg
  | chunk, item :: rest =>
    if (chunk ++ [item]).length = interval then
      (chunksExactGo interval [] rest).map (fun tail => (chunk ++ [item]) :: tail)
    else
      chunksExactGo interval (chunk ++ [item]) rest

/-- chunks_exact: split the iterable into consecutive chunks of exactly
interval items, failing when the length is not a multiple of the interval.
The source is a lazy generator consumed by a single for-loop; it is
evaluated eagerly here, which is behaviour-preserving inside
get_redeem_codes because the row-count check guarantees the chunking never
hits the leftover error there. -/
def chunks_exact (iterable : List Row) (interval : Nat) : Except String (List (List Row)) :=
  chunksExactGo interval [] iterable

/-- BeautifulSoup's find_all on a table always returns a (possibly empty)
ResultSet, never None; it is modelled as returning the table's row list. -/
def find_all_rows (table : List Row) : Option (List Row) :=
  some table

/-- The for-loop of get_redeem_codes: for each chunk, parse it, require a
Code key, add the code to the current set, and append it to added when it is
absent from the memo as it stood before the cycle began. -/
def processChunks (memo : Finset String) : List (List Row) → List String → Finset String →
    Except String (List String × Finset String)
  | [], added, current => Except.ok (added, current)
  | chunk :: rest, added, current =>
    match dictGet (parse_chunked_rows chunk) codeKey with
    | none => Except.error missingCodeMsg
    | some code =>
      processChunks memo rest
        (if code ∈ memo then added else added ++ [code])
        (insert code current)

/-- Python '\n'.join. -/
def joinLines : List String → String
  | [] => ""
  | [s] => s
  | s :: rest => s ++ "\n" ++ joinLines rest

/-- Contents written to the memo file: the newline-join of the current code
set in lexicographic sort order. -/
def memoFileContent (current : Finset String) : String :=
  joinLines (current.sort (· ≤ ·))

/-- get_redeem_codes: validate the row count, chunk the rows after the
discarded header row into groups of three, extract each group's Code, and on
success replace the memo wholesale with the scraped set and overwrite the
memo file.  An error carries the state as it stood at the raise site; the
memo and file are only written after the loop completes. -/
def get_redeem_codes (table : List Row) (st : BotState) :
    Except (String × BotState) (List String × BotState) :=
  match find_all_rows table with
  | none => Except.ok ([], st)
  | some rows =>
    if ((rows.length : Int) - 1) % 3 ≠ 0 then
      Except.error (rowCountMsg, st)
    else
      match chunks_exact (rows.drop 1) 3 with
      | Except.error msg => Except.error (msg, st)
      | Except.ok chunks =>
        match processChunks st.memo chunks [] ∅ with
        | Except.error msg => Except.error (msg, st)
        | Except.ok (added, current) =>
          Except.ok (added, ⟨current, some (memoFileContent current)⟩)

/-- get_redeem_code_table: require exactly one element matching the
table.redeemcode selector and return it; the select result is modelled as
the list of matching tables. -/
def get_redeem_code_table (elements : List (List Row)) : Except String (List Row) :=
  if h : elements.length = 1 then
    Except.ok (elements.get ⟨0, by omega⟩)
  else
    Except.error tableCountMsg

/-- One fetch-parse-diff cycle (fetch_and_send_codes up to the differ):
parse the table out of the select result, then run the differ; a parse
failure propagates before the differ is reached, leaving the state as it
was. -/
def runCycle (elements : List (List Row)) (st : BotState) :
    Except (String × BotState) (List String × BotState) :=
  match get_redeem_code_table elements with
  | Except.error msg => Except.error (msg, st)
  | Except.ok table => get_redeem_codes table st

/-- Characters at which Python str.splitlines breaks lines. -/
def isLineBoundary (c : Char) : Bool :=
  c.toNat = 10 || c.toNat = 11 || c.toNat = 12 || c.toNat = 13 ||
  c.toNat = 28 || c.toNat = 29 || c.toNat = 30 ||
  c.toNat = 133 || c.toNat = 8232 || c.toNat = 8233

/-- Worker for Python str.splitlines: acc holds the current line reversed; a
carriage return followed by a newline counts as a single break, and a
trailing line is emitted only when nonempty. -/
def splitlinesAux : List Char → List Char → List String
  | [], acc => if acc.isEmpty then [] else [String.mk acc.reverse]
  | '\r' :: '\n' :: rest, acc => String.mk acc.reverse :: splitlinesAux rest []
  | c :: rest, acc =>
    if isLineBoundary c then String.mk acc.reverse :: splitlinesAux rest []
    else splitlinesAux rest (c :: acc)

/-- Python str.splitlines. -/
def splitlines (s : String) : List String :=
  splitlinesAux s.data []

/-- Startup memo loading from main: when the memo file exists, split its
contents into lines and keep the nonempty ones as the initial memo set. -/
def load_memo (file : Option String) : Finset String :=
  match file with
  | none => ∅
  | some content =>
    ((splitlines content).filter (fun i => decide (i ≠ ""))).toFinset

/-- Consecutive groups of three, dropping any leftover: the chunk list that
chunks_exact yields on an input whose length is a multiple of three. -/
def groups3 : List Row → List (List Row)
  | a :: b :: c :: rest => [a, b, c] :: groups3 rest
  | _ => []

/-- The Code value extracted from one 3-row chunk, when present. -/
def chunkCode (chunk : List Row) : Option String :=
  dictGet (parse_chunked_rows chunk) codeKey

/-- The codes scraped from a table, in row order (one per 3-row group after
the discarded header row). -/
def scrapedCodes (table : List Row) : List String :=
  (groups3 (table.drop 1)).filterMap chunkCode

/-- A table is well formed when its row count is 1 + 3*N and every 3-row
group's parsed mapping contains a Code key. -/
def tableWellFormed (table : List Row) : Prop :=
  table.length % 3 = 1 ∧ ∀ c ∈ groups3 (table.drop 1), (chunkCode c).isSome = true

instance (table : List Row) : Decidable (tableWellFormed table) := by
  unfold tableWellFormed
  infer_instance

/-- A string free of line-boundary characters. -/
def boundaryFree (s : String) : Prop :=
  ∀ c ∈ s.data, isLineBoundary c = false

instance (s : String) : Decidable (boundaryFree s) := by
  unfold boundaryFree
  infer_instance

example : pyStrip (String.mk [' ', 'C', 'o', 'd', 'e', '\n']) = codeKey := by decide

example : chunks_exact [⟨none, none⟩, ⟨none, none⟩, ⟨none, none⟩] 3 =
    Except.ok [[⟨none, none⟩, ⟨none, none⟩, ⟨none, none⟩]] := rfl

example : splitlines (String.mk ['a', '\n', 'b']) = [String.mk ['a'], String.mk ['b']] := by
  decide

example : splitlines (String.mk ['a', '\r', '\n', '\n', 'b', '\n']) =
    [String.mk ['a'], String.mk [], String.mk ['b']] := by decide

/-- Induction principle following the three-at-a-time structure of groups3. -/
theorem list3_induction {P : List Row → Prop} (h0 : P []) (h1 : ∀ a, P [a])
    (h2 : ∀ a b, P [a, b])
    (h3 : ∀ a b c rest, P rest → P (a :: b :: c :: rest)) :
    ∀ l : List Row, P l
  | [] => h0
  | [a] => h1 a
  | [a, b] => h2 a b
  | a :: b :: c :: rest => h3 a b c rest (list3_induction h0 h1 h2 h3 rest)

/-- On an input whose length is a multiple of three, chunks_exact succeeds
and yields the consecutive groups of three. -/
theorem chunks_exact_mod3 :
    ∀ l : List Row, l.length % 3 = 0 → chunks_exact l 3 = Except.ok (groups3 l) := by
  intro l
  induction l using list3_induction with
  | h0 => intro _; rfl
  | h1 a => intro h; simp at h
  | h2 a b => intro h; simp at h
  | h3 a b c rest ih =>
    intro h
    have hrest : rest.length % 3 = 0 := by simp at h; omega
    have := ih hrest
    simp only [chunks_exact, chunksExactGo] at this ⊢
    simp only [List.nil_append, List.singleton_append, List.length_cons, List.length_nil,
      List.length_singleton] at this ⊢
    norm_num
    rw [this]
    simp [groups3, Except.map]

/-- When every chunk carries a Code, the loop succeeds: added collects, in
order, every scraped occurrence absent from the pre-cycle memo, and current
collects the scraped code set. -/
theorem processChunks_ok (memo : Finset String) :
    ∀ (chunks : List (List Row)) (added : List String) (current : Finset String),
    (∀ c ∈ chunks, (chunkCode c).isSome = true) →
    processChunks memo chunks added current =
      Except.ok (added ++ (chunks.filterMap chunkCode).filter (fun c => decide (c ∉ memo)),
        current ∪ (chunks.filterMap chunkCode).toFinset) := by
  intro chunks
  induction chunks with
  | nil => intro added current _; simp [processChunks]
  | cons chunk rest ih =>
    intro added current h
    obtain ⟨code, hcode⟩ :=
      Option.isSome_iff_exists.mp (h chunk (List.mem_cons_self _ _))
    have hrest : ∀ c ∈ rest, (chunkCode c).isSome = true :=
      fun c hc => h c (List.mem_cons_of_mem _ hc)
    have hcode' : dictGet (parse_chunked_rows chunk) codeKey = some code := hcode
    simp only [processChunks, hcode']
    rw [ih _ _ hrest]
    by_cases hmem : code ∈ memo <;>
      simp [List.filterMap_cons, hcode, List.filter_cons, hmem, List.toFinset_cons,
        Finset.insert_union, Finset.union_insert, List.append_assoc]

/-- When some chunk lacks a Code, the loop raises the structural error. -/
theorem processChunks_error (memo : Finset String) :
    ∀ (chunks : List (List Row)) (added : List String) (current : Finset String),
    (∃ c ∈ chunks, chunkCode c = none) →
    processChunks memo chunks added current = Except.error missingCodeMsg := by
  intro chunks
  induction chunks with
  | nil => intro _ _ h; simp at h
  | cons chunk rest ih =>
    intro added current h
    by_cases hc : chunkCode chunk = none
    · have hc' : dictGet (parse_chunked_rows chunk) codeKey = none := hc
      simp only [processChunks, hc']
    · obtain ⟨code, hcode⟩ := Option.ne_none_iff_exists'.mp hc
      have hcode' : dictGet (parse_chunked_rows chunk) codeKey = some code := hcode
      simp only [processChunks, hcode']
      apply ih
      rcases h with ⟨c, hmem, hnone⟩
      rcases List.mem_cons.mp hmem with rfl | hmem'
      · exact absurd hnone hc
      · exact ⟨c, hmem', hnone⟩

/-- Master lemma: on a well-formed table the differ returns the row-order
list of scraped occurrences absent from the pre-cycle memo, and the new
state holds exactly the scraped code set, persisted sorted to the file. -/
theorem get_redeem_codes_wf (table : List Row) (st : BotState) (h : tableWellFormed table) :
    get_redeem_codes table st =
      Except.ok ((scrapedCodes table).filter (fun c => decide (c ∉ st.memo)),
        ⟨(scrapedCodes table).toFinset,
         some (memoFileContent ((scrapedCodes table).toFinset))⟩) := by
  obtain ⟨hlen, hcodes⟩ := h
  have hmod : (((table.length : Int)) - 1) % 3 = 0 := by omega
  have hdrop : (table.drop 1).length % 3 = 0 := by
    rw [List.length_drop]
    omega
  have h1 := chunks_exact_mod3 (table.drop 1) hdrop
  have h2 := processChunks_ok st.memo (groups3 (table.drop 1)) [] ∅ hcodes
  simp only [get_redeem_codes, find_all_rows, h1, h2, hmod, scrapedCodes]
  simp

/-- Header row of the sample tables (a th cell only, as on the wiki page). -/
def hdrRow : Row := ⟨some ("Currently Active Redeem Codes"), none⟩

/-- A Code row with the given raw td text. -/
def codeRow (v : String) : Row := ⟨some ("Code"), some v⟩

/-- A Rewards row. -/
def rewardsRow : Row := ⟨some ("Rewards"), some ("Gem x10")⟩

/-- A Dates row. -/
def datesRow : Row := ⟨some ("Dates"), some ("Jan 1-31")⟩

/-- The spec's example table: header plus one complete code entry. -/
def sampleTable : List Row := [hdrRow, codeRow ("ABC123"), rewardsRow, datesRow]

/-- A well-formed table in which the same new code appears in two groups. -/
def dupTable : List Row :=
  [hdrRow, codeRow ("X"), rewardsRow, datesRow, codeRow ("X"), rewardsRow, datesRow]

/-- A well-formed table whose single code strips to the empty string. -/
def emptyCodeTable : List Row := [hdrRow, codeRow (""), rewardsRow, datesRow]

/-- A 1 + 3*N table whose single group lacks a Code row. -/
def noCodeTable : List Row := [hdrRow, rewardsRow, datesRow, rewardsRow]

/-- The startup state before any memo file exists. -/
def stEmpty : BotState := ⟨∅, none⟩

/-- C1: for every well-formed table (1 + 3*N rows, every group's parsed
mapping containing a Code key) and every prior memo, get_redeem_codes
succeeds, the added list's underlying set is the scraped code set minus the
pre-call memo, and the resulting in-memory memo is exactly the scraped code
set (persisted sorted to the file). -/
theorem get_redeem_codes_diff_spec (table : List Row) (st : BotState)
    (h : tableWellFormed table) :
    get_redeem_codes table st =
      Except.ok ((scrapedCodes table).filter (fun c => decide (c ∉ st.memo)),
        ⟨(scrapedCodes table).toFinset,
         some (memoFileContent ((scrapedCodes table).toFinset))⟩) ∧
    ((scrapedCodes table).filter (fun c => decide (c ∉ st.memo))).toFinset =
      (scrapedCodes table).toFinset \ st.memo := by
  refine ⟨get_redeem_codes_wf table st h, ?_⟩
  ext x
  simp [List.mem_filter, Finset.mem_sdiff, List.mem_toFinset]

/-- Witness for C1 on the spec's example table with an empty prior memo. -/
theorem get_redeem_codes_diff_spec_witness :
    get_redeem_codes sampleTable stEmpty =
      Except.ok ((scrapedCodes sampleTable).filter (fun c => decide (c ∉ stEmpty.memo)),
        ⟨(scrapedCodes sampleTable).toFinset,
         some (memoFileContent ((scrapedCodes sampleTable).toFinset))⟩) ∧
    ((scrapedCodes sampleTable).filter (fun c => decide (c ∉ stEmpty.memo))).toFinset =
      (scrapedCodes sampleTable).toFinset \ stEmpty.memo :=
  get_redeem_codes_diff_spec sampleTable stEmpty (by decide)

/-- C3: running the differ again on the same table, starting from the state
the first run left behind, adds nothing and leaves the state fixed. -/
theorem get_redeem_codes_idempotent (table : List Row) (st st1 : BotState)
    (added : List String) (h : tableWellFormed table)
    (h2 : get_redeem_codes table st = Except.ok (added, st1)) :
    get_redeem_codes table st1 = Except.ok ([], st1) := by
  have h1 := get_redeem_codes_wf table st h
  rw [h2] at h1
  have h1' := h1.symm
  rw [Except.ok.injEq, Prod.mk.injEq] at h1'
  obtain ⟨-, hst1⟩ := h1'
  have hfil : (scrapedCodes table).filter
      (fun c => decide (c ∉ (scrapedCodes table).toFinset)) = [] := by
    rw [List.filter_eq_nil_iff]
    intro a ha
    simp [List.mem_toFinset, ha]
  subst hst1
  rw [get_redeem_codes_wf table _ h]
  simp [hfil]

/-- Witness for C3: the second run on the sample table from the state left
by the first run returns no added codes. -/
theorem get_redeem_codes_idempotent_witness :
    get_redeem_codes sampleTable
      ⟨(scrapedCodes sampleTable).toFinset,
       some (memoFileContent ((scrapedCodes sampleTable).toFinset))⟩ =
      Except.ok ([],
        ⟨(scrapedCodes sampleTable).toFinset,
         some (memoFileContent ((scrapedCodes sampleTable).toFinset))⟩) :=
  get_redeem_codes_idempotent sampleTable stEmpty _ _ (by decide)
    (get_redeem_codes_wf sampleTable stEmpty (by decide))

/-- C4: when the row count minus one is not divisible by three, the differ
raises the structural row-count error, and the error carries the memo set
and memo file exactly as they were before the call. -/
theorem row_count_error_preserves_state (table : List Row) (st : BotState)
    (h : (((table.length : Int)) - 1) % 3 ≠ 0) :
    get_redeem_codes table st = Except.error (rowCountMsg, st) := by
  simp only [get_redeem_codes, find_all_rows]
  rw [if_pos h]

/-- Witness for C4 on a three-row table (row count 3, so 2 leftover rows). -/
theorem row_count_error_preserves_state_witness :
    get_redeem_codes [hdrRow, hdrRow, hdrRow] stEmpty =
      Except.error (rowCountMsg, stEmpty) :=
  row_count_error_preserves_state [hdrRow, hdrRow, hdrRow] stEmpty (by decide)

/-- C5: on a 1 + 3*N table in which some group's parsed mapping lacks a
Code key, the differ raises the structural error, and the error carries the
memo set and memo file exactly as they were before the call. -/
theorem missing_code_error_preserves_state (table : List Row) (st : BotState)
    (h1 : table.length % 3 = 1)
    (h2 : ∃ c ∈ groups3 (table.drop 1), chunkCode c = none) :
    get_redeem_codes table st = Except.error (missingCodeMsg, st) := by
  have hmod : (((table.length : Int)) - 1) % 3 = 0 := by omega
  have hdrop : (table.drop 1).length % 3 = 0 := by
    rw [List.length_drop]
    omega
  have hc := chunks_exact_mod3 (table.drop 1) hdrop
  have hp := processChunks_error st.memo (groups3 (table.drop 1)) [] ∅ h2
  simp only [get_redeem_codes, find_all_rows, hc, hp, hmod]
  simp

/-- Witness for C5 on a four-row table whose single group has no Code row. -/
theorem missing_code_error_preserves_state_witness :
    get_redeem_codes noCodeTable stEmpty = Except.error (missingCodeMsg, stEmpty) :=
  missing_code_error_preserves_state noCodeTable stEmpty (by decide) (by decide)

/-- C8: on a well-formed table the added list is exactly the scraped codes
in row order, filtered by absence from the pre-cycle memo (first-seen order
of this cycle's groups, not sorted order). -/
theorem added_first_seen_order (table : List Row) (st : BotState)
    (h : tableWellFormed table) :
    ∃ st1, get_redeem_codes table st =
      Except.ok ((scrapedCodes table).filter (fun c => decide (c ∉ st.memo)), st1) :=
  ⟨_, get_redeem_codes_wf table st h⟩

/-- Witness for C8 on the duplicate-code table with an empty prior memo. -/
theorem added_first_seen_order_witness :
    ∃ st1, get_redeem_codes dupTable stEmpty =
      Except.ok ((scrapedCodes dupTable).filter (fun c => decide (c ∉ stEmpty.memo)), st1) :=
  added_first_seen_order dupTable stEmpty (by decide)

/-- C10: a table with an empty row list hits the row-count check (Python's
(0 - 1) mod 3 is 2), raising the structural error with the state untouched;
and the None branch of find_all is unreachable, find_all always returning a
list. -/
theorem empty_table_structural_error (st : BotState) :
    get_redeem_codes [] st = Except.error (rowCountMsg, st) ∧
    ∀ table : List Row, (find_all_rows table).isSome = true := by
  constructor
  · rfl
  · intro t
    rfl

/-- C7: the table parser succeeds exactly when the select result has exactly
one element; otherwise it errors and the cycle stops before the differ, the
state unchanged. -/
theorem table_parser_unique_match (elements : List (List Row)) (st : BotState) :
    ((∃ t, get_redeem_code_table elements = Except.ok t) ↔ elements.length = 1) ∧
    (elements.length ≠ 1 → runCycle elements st = Except.error (tableCountMsg, st)) := by
  by_cases h : elements.length = 1
  · constructor
    · simp [get_redeem_code_table, h]
    · intro h'
      exact absurd h h'
  · constructor
    · simp [get_redeem_code_table, h]
    · intro _
      simp [runCycle, get_redeem_code_table, h]

/-- Witness for C7: an empty select result aborts the cycle unchanged. -/
theorem table_parser_unique_match_witness :
    runCycle [] stEmpty = Except.error (tableCountMsg, stEmpty) :=
  (table_parser_unique_match [] stEmpty).2 (by decide)

/-- Counterexample to C2: on dupTable the code X is absent from the empty
pre-cycle memo and appears in two groups, yet the returned added list
contains X twice, not only its first occurrence. -/
theorem duplicate_added_twice_cex :
    (∃ st1, get_redeem_codes dupTable stEmpty = Except.ok (["X", "X"], st1)) ∧
    (["X", "X"] : List String).count ("X") ≠ 1 := by
  constructor
  · refine ⟨⟨(scrapedCodes dupTable).toFinset,
      some (memoFileContent ((scrapedCodes dupTable).toFinset))⟩, ?_⟩
    rw [get_redeem_codes_wf dupTable stEmpty (by decide)]
    have hf : (scrapedCodes dupTable).filter (fun c => decide (c ∉ stEmpty.memo)) =
        ["X", "X"] := by decide
    rw [hf]
  · decide

/-- C2 amended: every occurrence of a code absent from the pre-cycle memo
is appended to added (a duplicated new code appears once per occurrence),
while the current set and the persisted memo list contain it exactly once. -/
theorem duplicate_occurrences_appended (table : List Row) (st : BotState) (c : String)
    (h : tableWellFormed table) (hc1 : c ∉ st.memo) (hc2 : c ∈ scrapedCodes table) :
    ∃ st1, get_redeem_codes table st =
      Except.ok ((scrapedCodes table).filter (fun x => decide (x ∉ st.memo)), st1) ∧
      ((scrapedCodes table).filter (fun x => decide (x ∉ st.memo))).count c =
        (scrapedCodes table).count c ∧
      st1.memo = (scrapedCodes table).toFinset ∧
      (st1.memo.sort (· ≤ ·)).count c = 1 := by
  refine ⟨_, get_redeem_codes_wf table st h, ?_, rfl, ?_⟩
  · exact List.count_filter (by simp [hc1])
  · have hnd := Finset.sort_nodup (· ≤ ·) ((scrapedCodes table).toFinset)
    have hmem : c ∈ Finset.sort (· ≤ ·) ((scrapedCodes table).toFinset) := by
      rw [Finset.mem_sort]
      exact List.mem_toFinset.mpr hc2
    exact List.count_eq_one_of_mem hnd hmem

/-- Witness for the amended C2 on dupTable with code X. -/
theorem duplicate_occurrences_appended_witness :
    ∃ st1, get_redeem_codes dupTable stEmpty =
      Except.ok ((scrapedCodes dupTable).filter (fun x => decide (x ∉ stEmpty.memo)), st1) ∧
      ((scrapedCodes dupTable).filter (fun x => decide (x ∉ stEmpty.memo))).count ("X") =
        (scrapedCodes dupTable).count ("X") ∧
      st1.memo = (scrapedCodes dupTable).toFinset ∧
      (st1.memo.sort (· ≤ ·)).count ("X") = 1 :=
  duplicate_occurrences_appended dupTable stEmpty ("X") (by decide) (by decide) (by decide)

/-- Unfolding lemma for splitlinesAux on the empty input. -/
theorem splitlinesAux_nil (acc : List Char) :
    splitlinesAux [] acc = if acc.isEmpty then [] else [String.mk acc.reverse] := rfl

/-- Unfolding lemma for splitlinesAux at a newline. -/
theorem splitlinesAux_newline (rest acc : List Char) :
    splitlinesAux ('\n' :: rest) acc = String.mk acc.reverse :: splitlinesAux rest [] := rfl

/-- Unfolding lemma for splitlinesAux at a non-boundary character. -/
theorem splitlinesAux_cons_nb (c : Char) (rest acc : List Char)
    (hc : isLineBoundary c = false) :
    splitlinesAux (c :: rest) acc = splitlinesAux rest (c :: acc) := by
  have hcr : c ≠ '\r' := by
    intro h
    rw [h] at hc
    exact absurd hc (by decide)
  rw [splitlinesAux.eq_def]
  split
  next heq => simp at heq
  next heq =>
    injection heq with h1 h2
    exact absurd h1 hcr
  next heq =>
    injection heq with h1 h2
    subst h1
    subst h2
    rw [hc]
    simp

/-- splitlinesAux consumes a boundary-free prefix into the accumulator. -/
theorem splitlinesAux_append :
    ∀ cs : List Char, (∀ c ∈ cs, isLineBoundary c = false) →
    ∀ ys acc : List Char, splitlinesAux (cs ++ ys) acc = splitlinesAux ys (cs.reverse ++ acc)
  | [], _, ys, acc => by simp
  | c :: cs, h, ys, acc => by
    have hc : isLineBoundary c = false := h c (List.mem_cons_self _ _)
    have hcs : ∀ d ∈ cs, isLineBoundary d = false :=
      fun d hd => h d (List.mem_cons_of_mem _ hd)
    rw [List.cons_append, splitlinesAux_cons_nb c _ _ hc,
      splitlinesAux_append cs hcs ys (c :: acc)]
    simp

/-- A nonempty boundary-free character list is one whole line. -/
theorem splitlinesAux_last (cs : List Char) (hbf : ∀ c ∈ cs, isLineBoundary c = false)
    (hne : cs ≠ []) : splitlinesAux cs [] = [String.mk cs] := by
  have h := splitlinesAux_append cs hbf [] []
  rw [List.append_nil] at h
  rw [h, splitlinesAux_nil]
  simp [hne]

/-- A boundary-free prefix before a newline is split off as one line. -/
theorem splitlinesAux_line (cs ys : List Char)
    (hbf : ∀ c ∈ cs, isLineBoundary c = false) :
    splitlinesAux (cs ++ '\n' :: ys) [] = String.mk cs :: splitlinesAux ys [] := by
  rw [splitlinesAux_append cs hbf ('\n' :: ys) [], splitlinesAux_newline]
  simp

/-- Splitting the newline-join of nonempty boundary-free lines recovers the
lines. -/
theorem splitlines_joinLines :
    ∀ l : List String, (∀ s ∈ l, s ≠ "" ∧ boundaryFree s) →
    splitlines (joinLines l) = l
  | [], _ => rfl
  | [s], h => by
    obtain ⟨hne, hbf⟩ := h s (by simp)
    obtain ⟨data⟩ := s
    have hd : data ≠ [] := by
      intro hd
      exact hne (by rw [hd])
    show splitlinesAux data [] = [⟨data⟩]
    exact splitlinesAux_last data hbf hd
  | s :: t :: rest, h => by
    obtain ⟨hne, hbf⟩ := h s (by simp)
    have hrest : ∀ x ∈ t :: rest, x ≠ "" ∧ boundaryFree x :=
      fun x hx => h x (List.mem_cons_of_mem _ hx)
    have ih' : splitlinesAux (joinLines (t :: rest)).data [] = t :: rest :=
      splitlines_joinLines (t :: rest) hrest
    have hj : joinLines (s :: t :: rest) = s ++ "\n" ++ joinLines (t :: rest) := rfl
    have hnl : ("\n" : String).data = ['\n'] := rfl
    show splitlinesAux (joinLines (s :: t :: rest)).data [] = s :: t :: rest
    rw [hj]
    rw [show (s ++ "\n" ++ joinLines (t :: rest)).data
        = s.data ++ '\n' :: (joinLines (t :: rest)).data by
      simp [String.data_append, hnl]]
    rw [splitlinesAux_line s.data (joinLines (t :: rest)).data hbf, ih']

/-- C6 amended: reloading the persisted memo reproduces the set whenever
every code is nonempty and free of line-boundary characters (exactly what
the empty-string counterexample forces). -/
theorem memo_roundtrip_amended (s : Finset String)
    (h : ∀ c ∈ s, c ≠ "" ∧ boundaryFree c) :
    load_memo (some (memoFileContent s)) = s := by
  have hs : ∀ x ∈ s.sort (· ≤ ·), x ≠ "" ∧ boundaryFree x := by
    intro x hx
    rw [Finset.mem_sort] at hx
    exact h x hx
  have hfil : (s.sort (· ≤ ·)).filter (fun i => decide (i ≠ "")) = s.sort (· ≤ ·) := by
    rw [List.filter_eq_self]
    intro a ha
    simp [(hs a ha).1]
  simp only [load_memo, memoFileContent]
  rw [splitlines_joinLines _ hs, hfil, Finset.sort_toFinset]

/-- Witness for the amended C6 on a singleton memo. -/
theorem memo_roundtrip_amended_witness :
    load_memo (some (memoFileContent ({"ABC123"} : Finset String))) =
      ({"ABC123"} : Finset String) :=
  memo_roundtrip_amended {"ABC123"} (by decide)

/-- Counterexample to C6 as stated for all code strings: the well-formed
table emptyCodeTable persists the memo containing only the empty-string
code, whose file content reloads to the empty set, not to the persisted
set. -/
theorem memo_roundtrip_cex :
    get_redeem_codes emptyCodeTable stEmpty =
      Except.ok ([""], ⟨{""}, some (memoFileContent ({""} : Finset String))⟩) ∧
    load_memo (some (memoFileContent ({""} : Finset String))) ≠ ({""} : Finset String) := by
  have hts : (scrapedCodes emptyCodeTable).toFinset = ({""} : Finset String) := by decide
  have hfc : memoFileContent ({""} : Finset String) = "" := by
    rw [memoFileContent, Finset.sort_singleton]
    rfl
  constructor
  · have h := get_redeem_codes_wf emptyCodeTable stEmpty (by decide)
    rw [hts] at h
    have hfil : (scrapedCodes emptyCodeTable).filter
        (fun c => decide (c ∉ stEmpty.memo)) = [""] := by decide
    rw [hfil] at h
    exact h
  · rw [hfc]
    have hlm : load_memo (some ("")) = (∅ : Finset String) := rfl
    rw [hlm]
    decide

/-- get_table_row_text as defined in redeem-code.py (textually identical to
the bot.py copy). -/
def get_table_row_text_rc (row : Row) : Option (String × String) :=
  match row.th with
  | none => none
  | some header =>
    match row.td with
    | none => none
    | some data => some (pyStrip header, pyStrip data)

/-- Loop body of redeem-code.py's chunks_exact generator. -/
def chunksExactGo_rc (interval : Nat) : List Row → List Row →
    Except String (List (List Row))
  | chunk, [] =>
    if chunk.isEmpty then Except.ok []
    else Except.error chunkLeftoverMsg
  | chunk, item :: rest =>
    if (chunk ++ [item]).length = interval then
      (chunksExactGo_rc interval [] rest).map (fun tail => (chunk ++ [item]) :: tail)
    else
      chunksExactGo_rc interval (chunk ++ [item]) rest

/-- chunks_exact as defined in redeem-code.py. -/
def chunks_exact_rc (iterable : List Row) (interval : Nat) :
    Except String (List (List Row)) :=
  chunksExactGo_rc interval [] iterable

/-- parse_chunked_rows as defined in redeem-code.py. -/
def parse_chunked_rows_rc (chunk : List Row) : List (String × String) :=
  chunk.foldl
    (fun data row =>
      match get_table_row_text_rc row with
      | none => data
      | some rd => dictInsert data rd.1 rd.2)
    []

/-- The for-loop of redeem-code.py's get_redeem_codes. -/
def processChunks_rc (memo : Finset String) :
    List (List Row) → List String → Finset String →
    Except String (List String × Finset String)
  | [], added, current => Except.ok (added, current)
  | chunk :: rest, added, current =>
    match dictGet (parse_chunked_rows_rc chunk) codeKey with
    | none => Except.error missingCodeMsg
    | some code =>
      processChunks_rc memo rest
        (if code ∈ memo then added else added ++ [code])
        (insert code current)

/-- get_redeem_codes as defined in redeem-code.py. -/
def get_redeem_codes_rc (table : List Row) (st : BotState) :
    Except (String × BotState) (List String × BotState) :=
  match find_all_rows table with
  | none => Except.ok ([], st)
  | some rows =>
    if ((rows.length : Int) - 1) % 3 ≠ 0 then
      Except.error (rowCountMsg, st)
    else
      match chunks_exact_rc (rows.drop 1) 3 with
      | Except.error msg => Except.error (msg, st)
      | Except.ok chunks =>
        match processChunks_rc st.memo chunks [] ∅ with
        | Except.error msg => Except.error (msg, st)
        | Except.ok (added, current) =>
          Except.ok (added, ⟨current, some (memoFileContent current)⟩)

/-- The two chunking loops agree on all inputs. -/
theorem chunksExactGo_rc_eq (interval : Nat) :
    ∀ (chunk l : List Row),
    chunksExactGo_rc interval chunk l = chunksExactGo interval chunk l
  | _, [] => rfl
  | chunk, item :: rest => by
    simp only [chunksExactGo_rc, chunksExactGo,
      chunksExactGo_rc_eq interval [] rest,
      chunksExactGo_rc_eq interval (chunk ++ [item]) rest]

/-- The two chunks_exact copies agree on all inputs. -/
theorem chunks_exact_rc_eq (iterable : List Row) (interval : Nat) :
    chunks_exact_rc iterable interval = chunks_exact iterable interval :=
  chunksExactGo_rc_eq interval [] iterable

/-- The two extraction folds agree on all chunks. -/
theorem parse_chunked_rows_rc_eq (chunk : List Row) :
    parse_chunked_rows_rc chunk = parse_chunked_rows chunk := rfl

/-- The two differ loops agree on all inputs. -/
theorem processChunks_rc_eq (memo : Finset String) :
    ∀ (chunks : List (List Row)) (added : List String) (current : Finset String),
    processChunks_rc memo chunks added current = processChunks memo chunks added current
  | [], _, _ => rfl
  | chunk :: rest, added, current => by
    simp only [processChunks_rc, processChunks, parse_chunked_rows_rc_eq]
    cases dictGet (parse_chunked_rows chunk) codeKey with
    | none => rfl
    | some code => exact processChunks_rc_eq memo rest _ _

/-- The two get_redeem_codes copies agree on all inputs. -/
theorem get_redeem_codes_rc_eq (table : List Row) (st : BotState) :
    get_redeem_codes_rc table st = get_redeem_codes table st := by
  simp only [get_redeem_codes_rc, get_redeem_codes, chunks_exact_rc_eq, processChunks_rc_eq]

/-- C9: the extraction/diff core of redeem-code.py coincides with the one
in bot.py on every input: same row extraction, same chunking (including the
error cases), same parsed mappings, and the same differ result, final state
and raised errors. -/
theorem core_duplicated_equiv :
    (∀ row : Row, get_table_row_text_rc row = get_table_row_text row) ∧
    (∀ (iterable : List Row) (interval : Nat),
      chunks_exact_rc iterable interval = chunks_exact iterable interval) ∧
    (∀ chunk : List Row, parse_chunked_rows_rc chunk = parse_chunked_rows chunk) ∧
    (∀ (table : List Row) (st : BotState),
      get_redeem_codes_rc table st = get_redeem_codes table st) :=
  ⟨fun _ => rfl, chunks_exact_rc_eq, parse_chunked_rows_rc_eq, get_redeem_codes_rc_eq⟩
